import Mathlib

/-!
Verification of the pachyderm storage/compaction layer against its
natural-language specification.  The Go source is shallowly embedded:
pure functions become Lean functions, etcd-collection mutation becomes
explicit store passing, fallible code returns Except, and byte strings
become lists of naturals.
-/

namespace Pach

/-- Byte strings (Go `[]byte` / `string`): lists of byte values. -/
abbrev Bytes := List Nat

/-- Errors are represented by their message strings (Go `error`). -/
abbrev Err := String

/-! ### Chunk wire format (src/internal/storage/chunk/chunk.proto) -/

/-- Embeds proto enum `CompressionAlgo` from chunk.proto:
`NONE = 0; GZIP_BEST_SPEED = 1;`. -/
inductive CompressionAlgo
  | NONE
  | GZIP_BEST_SPEED
deriving DecidableEq, Repr

/-- Embeds proto enum `EncryptionAlgo` from chunk.proto: `CHACHA20 = 0;`. -/
inductive EncryptionAlgo
  | CHACHA20
deriving DecidableEq, Repr

/-- Numeric value of each `CompressionAlgo` member, as declared in chunk.proto. -/
def CompressionAlgo.toNum : CompressionAlgo → Nat
  | .NONE => 0
  | .GZIP_BEST_SPEED => 1

/-- Numeric value of each `EncryptionAlgo` member, as declared in chunk.proto. -/
def EncryptionAlgo.toNum : EncryptionAlgo → Nat
  | .CHACHA20 => 0

/-- Decodes a wire value into a `CompressionAlgo` member (proto3 enum decoding;
unknown values have no member). -/
def CompressionAlgo.ofNum : Nat → Option CompressionAlgo
  | 0 => some .NONE
  | 1 => some .GZIP_BEST_SPEED
  | _ => none

/-- Decodes a wire value into an `EncryptionAlgo` member. -/
def EncryptionAlgo.ofNum : Nat → Option EncryptionAlgo
  | 0 => some .CHACHA20
  | _ => none

/-- Embeds proto message `Ref` from chunk.proto. -/
structure Ref where
  id : Bytes
  sizeBytes : Nat
  edge : Bool
  dek : Bytes
  encryptionAlgo : EncryptionAlgo
  compressionAlgo : CompressionAlgo
deriving DecidableEq, Repr

/-- Embeds proto message `DataRef` from chunk.proto: a reference to the byte
range `[offsetBytes, offsetBytes + sizeBytes)` of the chunk named by `ref`. -/
structure DataRef where
  ref : Ref
  hash : Bytes
  offsetBytes : Nat
  sizeBytes : Nat
deriving DecidableEq, Repr

/-! ### Pipeline and job state (src/internal/ppsutil/util.go) -/

/-- Embeds the `pps.PipelineState` enum (the members referenced by
SetPipelineState in src/internal/ppsutil/util.go). -/
inductive PipelineState
  | PIPELINE_STARTING
  | PIPELINE_RUNNING
  | PIPELINE_RESTARTING
  | PIPELINE_FAILURE
  | PIPELINE_PAUSED
  | PIPELINE_STANDBY
  | PIPELINE_CRASHING
deriving DecidableEq, Repr

/-- Embeds the `pps.JobState` enum members recognized by `IsTerminal`
(src/internal/ppsutil/util.go). -/
inductive JobState
  | JOB_STARTING
  | JOB_RUNNING
  | JOB_FAILURE
  | JOB_SUCCESS
  | JOB_KILLED
  | JOB_EGRESSING
deriving DecidableEq, Repr

/-- The int32 value of a `JobState` (used as the JobCounts map key). -/
def jobStateNum : JobState → Nat
  | .JOB_STARTING => 0
  | .JOB_RUNNING => 1
  | .JOB_FAILURE => 2
  | .JOB_SUCCESS => 3
  | .JOB_KILLED => 4
  | .JOB_EGRESSING => 5

/-- Embeds `pps.EtcdPipelineInfo` (the fields read or written by
SetPipelineState and UpdateJobState). -/
structure EtcdPipelineInfo where
  state : PipelineState
  reason : String
  jobCounts : List (Nat × Nat)
  lastJobState : JobState
deriving DecidableEq, Repr

/-- Embeds `pps.EtcdJobInfo` (the fields read or written by UpdateJobState). -/
structure EtcdJobInfo where
  job : String
  pipeline : String
  state : JobState
  reason : String
  started : Option Nat
  finished : Option Nat
deriving DecidableEq, Repr

/-- An etcd collection (`col.Collection`), embedded as an association list
from key to record. -/
abbrev Col (α : Type) := List (String × α)

/-- `collection.Get`: look up a key, `ErrNotFound` when absent. -/
def colGet (l : Col α) (k : String) : Except Err α :=
  match l.find? (fun kv => kv.1 = k) with
  | some kv => .ok kv.2
  | none => .error ("not found: " ++ k)

/-- `collection.Put`: overwrite the record under a key (insert when absent). -/
def colPut (l : Col α) (k : String) (v : α) : Col α :=
  if (l.find? (fun kv => kv.1 = k)).isSome then
    l.map (fun kv => if kv.1 = k then (k, v) else kv)
  else
    l ++ [(k, v)]

/-- Embeds `ppsutil.SetPipelineState` (src/internal/ppsutil/util.go): inside an
STM transaction, read the pipeline record; if it is already in
PIPELINE_FAILURE, or in STANDBY while moving to CRASHING, return without
writing; if a `from` list is given and the record is in none of those states
nor already in `to`, fail with a transition error; otherwise write the record
with the new state and reason.  The STM is embedded by passing the pipelines
collection in and returning the (possibly updated) collection. -/
def setPipelineState (pipelines : Col EtcdPipelineInfo) (pipeline : String)
    (fromStates : List PipelineState) (target : PipelineState) (reason : String) :
    Except Err (Col EtcdPipelineInfo) :=
  match colGet pipelines pipeline with
  | .error e => .error e
  | .ok ptr =>
    if ptr.state = .PIPELINE_FAILURE then
      .ok pipelines
    else if ptr.state = .PIPELINE_STANDBY ∧ target = .PIPELINE_CRASHING then
      .ok pipelines
    else if fromStates.length > 0 ∧ ptr.state ∉ fromStates ∧ ptr.state ≠ target then
      .error ("PipelineTransitionError: " ++ pipeline)
    else
      .ok (colPut pipelines pipeline { ptr with state := target, reason := reason })

/-- Embeds `ppsutil.IsTerminal` (src/internal/ppsutil/util.go). -/
def IsTerminal : JobState → Bool
  | .JOB_SUCCESS => true
  | .JOB_FAILURE => true
  | .JOB_KILLED => true
  | .JOB_STARTING => false
  | .JOB_RUNNING => false
  | .JOB_EGRESSING => false

/-- Lookup in a JobCounts map (`map[int32]int32`; absent keys read as 0). -/
def countsGet (m : List (Nat × Nat)) (k : Nat) : Nat :=
  match m.find? (fun kv => kv.1 = k) with
  | some kv => kv.2
  | none => 0

/-- Store into a JobCounts map. -/
def countsSet (m : List (Nat × Nat)) (k : Nat) (v : Nat) : List (Nat × Nat) :=
  if (m.find? (fun kv => kv.1 = k)).isSome then
    m.map (fun kv => if kv.1 = k then (k, v) else kv)
  else
    m ++ [(k, v)]

/-- Embeds `ppsutil.UpdateJobState` (src/internal/ppsutil/util.go): refuse a
transition out of a terminal job state; otherwise decrement the pipeline
JobCounts entry of the old state (when nonzero), increment the entry of the
new state, set LastJobState, write the pipeline record, stamp Started or
Finished, set the job state and reason, and write the job record.  Mutation of
the two collections is embedded by returning them alongside the error slot;
on the terminal-state error both are returned unchanged. -/
def updateJobState (pipelines : Col EtcdPipelineInfo) (jobs : Col EtcdJobInfo)
    (jobPtr : EtcdJobInfo) (state : JobState) (reason : String) (now : Nat) :
    Option Err × Col EtcdPipelineInfo × Col EtcdJobInfo :=
  if IsTerminal jobPtr.state then
    (some ("cannot put " ++ jobPtr.job ++ " in a new state: already terminal"),
      pipelines, jobs)
  else
    match colGet pipelines jobPtr.pipeline with
    | .error e => (some e, pipelines, jobs)
    | .ok ptr =>
      let jc0 := ptr.jobCounts
      let jc1 :=
        if countsGet jc0 (jobStateNum jobPtr.state) ≠ 0 then
          countsSet jc0 (jobStateNum jobPtr.state)
            (countsGet jc0 (jobStateNum jobPtr.state) - 1)
        else jc0
      let jc2 := countsSet jc1 (jobStateNum state) (countsGet jc1 (jobStateNum state) + 1)
      let pipelines' := colPut pipelines jobPtr.pipeline
        { ptr with jobCounts := jc2, lastJobState := state }
      let jobPtr1 :=
        if state = .JOB_STARTING then { jobPtr with started := some now }
        else if IsTerminal state then { jobPtr with finished := some now }
        else jobPtr
      let jobPtr2 := { jobPtr1 with state := state, reason := reason }
      (none, pipelines', colPut jobs jobPtr.job jobPtr2)

/-! ### PFS API server (src/unnamed/part_002) -/

/-- Embeds `pfs.Repo` (the field read by CreateRepoInTransaction). -/
structure Repo where
  name : String
deriving DecidableEq, Repr

/-- Embeds `pfs.CreateRepoRequest` (`GetRepo()` returns nil for an absent
repo, embedded as `Option`). -/
structure CreateRepoRequest where
  repo : Option Repo
  description : String
  update : Bool
deriving DecidableEq, Repr

/-- Modelled from the spec: the reserved fileset repo name (constant
`fileSetsRepo`, whose defining file is outside src/); only its identity as a
fixed reserved string matters. -/
def fileSetsRepo : String := "__filesets__"

/-- Embeds `apiServer.CreateRepoInTransaction` (src/unnamed/part_002): reject
a request whose repo is non-nil and named `fileSetsRepo`; otherwise forward to
`driver.createRepo`.  The driver call is embedded as a parameter giving its
outcome; the returned Bool records whether the driver was invoked. -/
def createRepoInTransaction (driverResult : Except Err Unit)
    (request : CreateRepoRequest) : Except Err Unit × Bool :=
  match request.repo with
  | some repo =>
    if repo.name = fileSetsRepo then
      (.error (fileSetsRepo ++ " is a reserved name"), false)
    else
      (driverResult, true)
  | none => (driverResult, true)

/-! ### Protobuf wire format

Modelled from the spec: the CompactionTask / PathRange / CompactionTaskResult
proto schema and the gogo proto Marshal / UnmarshalAny routines are outside
src/ (src/unnamed/part_003 only calls them).  They are modelled as the
standard proto3 wire format: little-endian base-128 varints, length-delimited
strings and nested messages, singular string fields omitted when empty,
repeated string fields emitted per element, later singular occurrences
overriding earlier ones, and unknown fields skipped by wire type. -/

/-- LEB128 varint encoding; the fuel argument bounds the recursion depth
(`n` itself always suffices since the value shrinks by division). -/
def encVarintAux : Nat → Nat → Bytes
  | 0, n => [n % 128]
  | fuel + 1, n =>
    if n < 128 then [n] else (n % 128 + 128) :: encVarintAux fuel (n / 128)

/-- LEB128 varint encoding of a natural number. -/
def encVarint (n : Nat) : Bytes := encVarintAux n n

/-- LEB128 varint decoding: returns the value and the remaining bytes. -/
def readVarint : Bytes → Option (Nat × Bytes)
  | [] => none
  | b :: rest =>
    if b < 128 then some (b, rest)
    else
      match readVarint rest with
      | some (v, rest') => some (b % 128 + 128 * v, rest')
      | none => none

/-- Length-delimited encoding: varint byte count, then the bytes. -/
def encLenDelim (s : Bytes) : Bytes := encVarint s.length ++ s

/-- Length-delimited decoding: returns the payload and the remaining bytes. -/
def readLenDelim (bs : Bytes) : Option (Bytes × Bytes) :=
  match readVarint bs with
  | none => none
  | some (n, rest) =>
    if n ≤ rest.length then some (rest.take n, rest.drop n) else none

/-- Skip an unknown field given its wire type. -/
def skipField (wireType : Nat) (bs : Bytes) : Option Bytes :=
  match wireType with
  | 0 => (readVarint bs).map (fun p => p.2)
  | 1 => if 8 ≤ bs.length then some (bs.drop 8) else none
  | 2 => (readLenDelim bs).map (fun p => p.2)
  | 5 => if 4 ≤ bs.length then some (bs.drop 4) else none
  | _ => none

/-- Proto message `PathRange` (fields: lower = 1, upper = 2). -/
structure PathRange where
  lower : Bytes
  upper : Bytes
deriving DecidableEq, Inhabited, Repr

/-- Proto message `CompactionTask` (fields: inputs = 1 repeated, range = 2). -/
structure CompactionTask where
  inputs : List Bytes
  range : Option PathRange
deriving DecidableEq, Inhabited, Repr

/-- Proto message `CompactionTaskResult` (field: id = 1). -/
structure CompactionTaskResult where
  id : Bytes
deriving DecidableEq, Inhabited, Repr

/-- `types.Any`: a type-tagged serialized envelope. -/
structure ProtoAny where
  typeUrl : Bytes
  value : Bytes
deriving DecidableEq, Inhabited, Repr

/-- Encode a singular proto3 string field (omitted when empty). -/
def encStrField (tag : Nat) (s : Bytes) : Bytes :=
  if s = [] then [] else tag :: encLenDelim s

/-- proto3 encoding of `PathRange`. -/
def encPathRange (r : PathRange) : Bytes :=
  encStrField 10 r.lower ++ encStrField 18 r.upper

/-- proto3 encoding of the repeated `inputs` field of `CompactionTask`. -/
def encTaskInputs (inputs : List Bytes) : Bytes :=
  (inputs.map (fun s => 10 :: encLenDelim s)).flatten

/-- proto3 encoding of `CompactionTask` (a non-nil `range` message is emitted
even when empty; a nil one is omitted). -/
def encCompactionTask (t : CompactionTask) : Bytes :=
  encTaskInputs t.inputs ++
    (match t.range with
     | none => []
     | some r => 18 :: encLenDelim (encPathRange r))

/-- proto3 encoding of `CompactionTaskResult`. -/
def encCompactionTaskResult (res : CompactionTaskResult) : Bytes :=
  encStrField 10 res.id

/-- proto3 field loop decoding a `PathRange`, fueled by field count. -/
def decPathRangeLoop : Nat → PathRange → Bytes → Option PathRange
  | _, acc, [] => some acc
  | 0, _, _ :: _ => none
  | fuel + 1, acc, b :: bs =>
    match readVarint (b :: bs) with
    | none => none
    | some (tag, rest) =>
      if tag = 10 then
        match readLenDelim rest with
        | none => none
        | some (s, rest') => decPathRangeLoop fuel { acc with lower := s } rest'
      else if tag = 18 then
        match readLenDelim rest with
        | none => none
        | some (s, rest') => decPathRangeLoop fuel { acc with upper := s } rest'
      else
        match skipField (tag % 8) rest with
        | none => none
        | some rest' => decPathRangeLoop fuel acc rest'

/-- proto3 field loop decoding a `CompactionTask`; a nested `range` message
merges into any previously decoded one (proto merge semantics). -/
def decCompactionTaskLoop : Nat → CompactionTask → Bytes → Option CompactionTask
  | _, acc, [] => some acc
  | 0, _, _ :: _ => none
  | fuel + 1, acc, b :: bs =>
    match readVarint (b :: bs) with
    | none => none
    | some (tag, rest) =>
      if tag = 10 then
        match readLenDelim rest with
        | none => none
        | some (s, rest') =>
          decCompactionTaskLoop fuel { acc with inputs := acc.inputs ++ [s] } rest'
      else if tag = 18 then
        match readLenDelim rest with
        | none => none
        | some (s, rest') =>
          match decPathRangeLoop (s.length + 1) (acc.range.getD default) s with
          | none => none
          | some r => decCompactionTaskLoop fuel { acc with range := some r } rest'
      else
        match skipField (tag % 8) rest with
        | none => none
        | some rest' => decCompactionTaskLoop fuel acc rest'

/-- proto3 field loop decoding a `CompactionTaskResult`. -/
def decCompactionTaskResultLoop :
    Nat → CompactionTaskResult → Bytes → Option CompactionTaskResult
  | _, acc, [] => some acc
  | 0, _, _ :: _ => none
  | fuel + 1, acc, b :: bs =>
    match readVarint (b :: bs) with
    | none => none
    | some (tag, rest) =>
      if tag = 10 then
        match readLenDelim rest with
        | none => none
        | some (s, rest') =>
          decCompactionTaskResultLoop fuel { acc with id := s } rest'
      else
        match skipField (tag % 8) rest with
        | none => none
        | some rest' => decCompactionTaskResultLoop fuel acc rest'

/-- The bytes of a string literal. -/
def asBytes (s : String) : Bytes := s.data.map Char.toNat

/-- Modelled from the spec: the registered protobuf message name of
`CompactionTask` (the proto registry is outside src/; only its identity as a
fixed, message-specific tag matters). -/
def compactionTaskName : Bytes := asBytes "pfs.CompactionTask"

/-- Modelled from the spec: the registered protobuf message name of
`CompactionTaskResult`. -/
def compactionTaskResultName : Bytes := asBytes "pfs.CompactionTaskResult"

/-- The segment of a type URL after its last slash (byte 47), as used by
`types.UnmarshalAny` to match the envelope tag against a message name. -/
def afterLastSlash (bs : Bytes) : Bytes :=
  bs.foldl (fun acc b => if b = 47 then [] else acc ++ [b]) []

/-- Embeds `serializeCompactionTask` (src/unnamed/part_003): proto-marshal the
task and wrap it in a `types.Any` whose TypeUrl is a slash followed by the
message name.  (`proto.Marshal` cannot fail on these messages, so the Go
error slot is dropped.) -/
def serializeCompactionTask (task : CompactionTask) : ProtoAny :=
  { typeUrl := 47 :: compactionTaskName, value := encCompactionTask task }

/-- Embeds `deserializeCompactionTask` (src/unnamed/part_003):
`types.UnmarshalAny` into a fresh `CompactionTask`, checking the envelope tag
against the message name and then proto-unmarshalling the payload. -/
def deserializeCompactionTask (taskAny : ProtoAny) : Except Err CompactionTask :=
  if afterLastSlash taskAny.typeUrl = compactionTaskName then
    match decCompactionTaskLoop (taskAny.value.length + 1) default taskAny.value with
    | some t => .ok t
    | none => .error "malformed CompactionTask message"
  else
    .error "message type of Any does not match CompactionTask"

/-- Embeds `serializeCompactionResult` (src/unnamed/part_003). -/
def serializeCompactionResult (res : CompactionTaskResult) : ProtoAny :=
  { typeUrl := 47 :: compactionTaskResultName, value := encCompactionTaskResult res }

/-- Embeds `deserializeCompactionResult` (src/unnamed/part_003). -/
def deserializeCompactionResult (resAny : ProtoAny) : Except Err CompactionTaskResult :=
  if afterLastSlash resAny.typeUrl = compactionTaskResultName then
    match decCompactionTaskResultLoop (resAny.value.length + 1) default resAny.value with
    | some r => .ok r
    | none => .error "malformed CompactionTaskResult message"
  else
    .error "message type of Any does not match CompactionTaskResult"

/-! ### Fileset IDs (modelled; src/internal/storage/fileset is outside src/) -/

/-- A fileset ID: 16 raw bytes. -/
abbrev ID := Bytes

/-- Value of one hex digit byte (both cases accepted, as by Go hex decoding). -/
def hexDigitVal (b : Nat) : Option Nat :=
  if 48 ≤ b ∧ b ≤ 57 then some (b - 48)
  else if 97 ≤ b ∧ b ≤ 102 then some (b - 97 + 10)
  else if 65 ≤ b ∧ b ≤ 70 then some (b - 65 + 10)
  else none

/-- Hex-decode a byte string (failing on odd length or a non-hex digit). -/
def hexDecode : Bytes → Option Bytes
  | [] => some []
  | [_] => none
  | a :: b :: rest =>
    match hexDigitVal a, hexDigitVal b, hexDecode rest with
    | some x, some y, some tl => some ((16 * x + y) :: tl)
    | _, _, _ => none

/-- Modelled from the spec: `fileset.ParseID` (outside src/) parses the hex
string form of an opaque 16-byte fileset ID, rejecting malformed input. -/
def parseID (x : Bytes) : Except Err ID :=
  match hexDecode x with
  | none => .error "parsing fileset id: invalid hex string"
  | some bs =>
    if bs.length = 16 then .ok bs else .error "parsing fileset id: wrong length"

/-- The lowercase hex digit bytes. -/
def hexDigits : Bytes := asBytes "0123456789abcdef"

/-- Modelled from the spec: `ID.HexString` (outside src/) renders an ID as
lowercase hex. -/
def hexString (id : ID) : Bytes :=
  (id.map (fun b => [hexDigits.getD (b / 16 % 16) 0, hexDigits.getD (b % 16) 0])).flatten

/-! ### PFS fileset RPCs (src/unnamed/part_002) -/

/-- Embeds `pfs.AddFilesetRequest` (the fields the handler reads). -/
structure AddFilesetRequest where
  commit : String
  filesetId : Bytes
deriving DecidableEq, Repr

/-- Embeds `pfs.RenewFilesetRequest`. -/
structure RenewFilesetRequest where
  filesetId : Bytes
  ttlSeconds : Nat
deriving DecidableEq, Repr

/-- Embeds `apiServer.AddFileset` (src/unnamed/part_002): parse the fileset
ID, failing before the driver is touched on a parse error, then call
`driver.addFileset`.  The driver call is a parameter giving its outcome; the
Bool records whether the driver was invoked. -/
def addFileset (driverResult : ID → Except Err Unit) (req : AddFilesetRequest) :
    Except Err Unit × Bool :=
  match parseID req.filesetId with
  | .error e => (.error e, false)
  | .ok fsid => (driverResult fsid, true)

/-- Embeds `apiServer.RenewFileset` (src/unnamed/part_002). -/
def renewFileset (driverResult : ID → Except Err Unit) (req : RenewFilesetRequest) :
    Except Err Unit × Bool :=
  match parseID req.filesetId with
  | .error e => (.error e, false)
  | .ok fsid => (driverResult fsid, true)

/-! ### Distributed compaction (src/unnamed/part_003) -/

/-- Embeds `work.TaskInfo` (the field the master callback reads: the Result
Any, which may be nil). -/
structure TaskInfo where
  result : Option ProtoAny
deriving DecidableEq, Repr

/-- Embeds `fileset.CompactionTask` (inputs as parsed IDs plus a path range),
as handed to the worker function by the distributed compactor. -/
structure FsCompactionTask where
  inputs : List ID
  pathRange : PathRange
deriving DecidableEq, Repr

/-- Embeds the master callback of `driver.compact` (src/unnamed/part_003,
`master.RunSubtasks` callback): a completed subtask with a nil Result is an
error; otherwise deserialize the result envelope, parse the fileset ID it
names, and append it to the collected results. -/
def collectCompactionResult (results : List ID) (taskInfo : TaskInfo) :
    Except Err (List ID) :=
  match taskInfo.result with
  | none => .error "no result set for compaction work.TaskInfo"
  | some resAny =>
    match deserializeCompactionResult resAny with
    | .error e => .error e
    | .ok res =>
      match parseID res.id with
      | .error e => .error e
      | .ok id => .ok (results ++ [id])

/-- Modelled from the spec: `work.Master.RunSubtasks` (outside src/) blocks
until every dispatched subtask reports success or any one reports failure
(fail-fast).  Each subtask execution is embedded as an outcome (an
infrastructure failure, or a completed TaskInfo); the collector callback runs
on each completed subtask in turn, its captured mutable state threaded
explicitly. -/
def runSubtasksFold {σ : Type} (cb : σ → TaskInfo → Except Err σ) (s0 : σ) :
    List (Except Err TaskInfo) → Except Err σ
  | [] => .ok s0
  | o :: rest =>
    match o with
    | .error e => .error e
    | .ok taskInfo =>
      match cb s0 taskInfo with
      | .error e => .error e
      | .ok s1 => runSubtasksFold cb s1 rest

/-- Embeds the worker function of `driver.compact` (src/unnamed/part_003):
serialize each fileset.CompactionTask into a work.Task envelope (inputs in
hex string form), dispatch, and collect the reported fileset IDs through the
master callback. -/
def masterWorkerFunc (tasks : List FsCompactionTask)
    (outcomes : List (Except Err TaskInfo)) : Except Err (List ID) :=
  let _workTasks := tasks.map (fun task =>
    serializeCompactionTask
      { inputs := task.inputs.map hexString, range := some task.pathRange })
  runSubtasksFold collectCompactionResult [] outcomes

/-- Modelled from the spec: `DistributedCompactor.Compact` (outside src/)
splits the merge into path-range-bounded subtasks (the partition is a
parameter), hands them to the worker function, and concatenates the subtask
outputs into the final merged fileset (the merge step is a parameter). -/
def dcCompact (mergeFn : List ID → ID) (tasks : List FsCompactionTask)
    (outcomes : List (Except Err TaskInfo)) : Except Err ID :=
  match masterWorkerFunc tasks outcomes with
  | .error e => .error e
  | .ok ids => .ok (mergeFn ids)

/-- Embeds `driver.compact` (src/unnamed/part_003).  `CompactLevelBased` and
`RunTaskBlock` (outside src/) are modelled from the spec as running the given
compaction callback and propagating its outcome.  The Go return pair
`(*fileset.ID, error)` is embedded literally: on callback error the driver
returns a nil ID with the error, otherwise the merged ID with a nil error. -/
def driverCompact (mergeFn : List ID → ID) (tasks : List FsCompactionTask)
    (outcomes : List (Except Err TaskInfo)) : Option ID × Option Err :=
  match dcCompact mergeFn tasks outcomes with
  | .error e => (none, some e)
  | .ok id => (some id, none)

/-- Embeds the per-task body of `driver.compactionWorker`
(src/unnamed/part_003): deserialize the task envelope, parse every serialized
input ID (failing on the first bad one, before storage is touched), build the
path range, run `storage.Compact` (a parameter giving its outcome; the Bool
records whether it was invoked), and serialize the resulting fileset ID. -/
def parseInputs : List Bytes → Except Err (List ID)
  | [] => .ok []
  | input :: rest =>
    match parseID input with
    | .error e => .error e
    | .ok id =>
      match parseInputs rest with
      | .error e => .error e
      | .ok ids => .ok (id :: ids)

/-- Embeds the worker callback of `driver.compactionWorker`
(src/unnamed/part_003, lines 75-99); see `parseInputs` for the input loop. -/
def compactionWorkerTask (storageCompact : List ID → PathRange → Except Err ID)
    (subtaskData : ProtoAny) : Except Err ProtoAny × Bool :=
  match deserializeCompactionTask subtaskData with
  | .error e => (.error e, false)
  | .ok task =>
    match parseInputs task.inputs with
    | .error e => (.error e, false)
    | .ok ids =>
      let pathRange : PathRange :=
        { lower := (task.range.getD default).lower
          upper := (task.range.getD default).upper }
      match storageCompact ids pathRange with
      | .error e => (.error e, true)
      | .ok id => (.ok (serializeCompactionResult { id := hexString id }), true)

/-! ### Fileset reader (src/server/pkg/storage/fileset/reader.go) -/

/-- Modelled from the spec: a part of an index entry carries per-tag metadata
and the DataRefs of the content it contributes (the index proto is outside
src/). -/
structure Part where
  tag : Bytes
  dataRefs : List DataRef
deriving DecidableEq, Inhabited, Repr

/-- Modelled from the spec: the File payload of an index record (its ordered
parts). -/
structure IndexFile where
  parts : List Part
deriving DecidableEq, Inhabited, Repr

/-- Modelled from the spec: an index record maps a file path to an ordered
sequence of DataRefs plus per-tag metadata (`index.Index`). -/
structure Index where
  path : Bytes
  file : IndexFile
deriving DecidableEq, Inhabited, Repr

/-- Modelled from the spec: `getDataRefs` (fileset helper outside src/)
collects the DataRefs of the entry parts in order. -/
def getDataRefs (parts : List Part) : List DataRef :=
  (parts.map (fun part => part.dataRefs)).flatten

/-- The chunk store: a content-addressed map from chunk ID to chunk bytes. -/
abbrev ChunkStore := List (Bytes × Bytes)

/-- Fetch a chunk by ID. -/
def chunkGet (store : ChunkStore) (id : Bytes) : Option Bytes :=
  match store.find? (fun kv => kv.1 = id) with
  | some kv => some kv.2
  | none => none

/-- Modelled from the spec (section 4.1): resolving one DataRef fetches its
chunk and yields exactly the referenced byte range; a missing chunk or an
out-of-range reference is a fatal integrity error. -/
def resolveDataRef (store : ChunkStore) (dr : DataRef) : Except Err Bytes :=
  match chunkGet store dr.ref.id with
  | none => .error "chunk not found"
  | some data =>
    if dr.offsetBytes + dr.sizeBytes ≤ data.length then
      .ok ((data.drop dr.offsetBytes).take dr.sizeBytes)
    else
      .error "chunk data out of range"

/-- Modelled from the spec: `chunk.Storage.NewReader(ctx, dataRefs).Get(w)`
(outside src/) streams the requested chunk ranges to `w` in the order given,
producing exactly the requested bytes. -/
def chunkReaderGet (store : ChunkStore) : List DataRef → Except Err Bytes
  | [] => .ok []
  | dr :: rest =>
    match resolveDataRef store dr with
    | .error e => .error e
    | .ok bs =>
      match chunkReaderGet store rest with
      | .error e => .error e
      | .ok tl => .ok (bs ++ tl)

/-- Embeds `FileReader` (reader.go) at value level: `newFileReader` stores
`proto.Clone(idx)`, and a deep clone is value-equal to the original, so the
field holds the index value.  (The aliasing behavior of the clones is made
explicit in the heap embedding below.) -/
structure FileReader where
  chunks : ChunkStore
  idx : Index
deriving DecidableEq, Repr

/-- Embeds `newFileReader` (reader.go) at value level. -/
def newFileReader (chunks : ChunkStore) (idx : Index) : FileReader :=
  ⟨chunks, idx⟩

/-- Embeds `FileReader.Content` (reader.go): collect the DataRefs of the
entry parts and stream them through a chunk-store reader. -/
def FileReader.Content (fr : FileReader) : Except Err Bytes :=
  chunkReaderGet fr.chunks (getDataRefs fr.idx.file.parts)

/-- Embeds the fileset metadata returned by `store.Get` (reader.go setup):
the additive and deletive index roots.  An `index.Reader` over a root yields
the entries of that index in order; each root is embedded as its entry
list. -/
structure Metadata where
  additive : List Index
  deletive : List Index
deriving DecidableEq, Repr

/-- The fileset store: map from fileset path to its metadata. -/
abbrev FilesetStore := List (String × Metadata)

/-- Embeds `Reader` (reader.go). -/
structure Reader where
  store : FilesetStore
  chunks : ChunkStore
  path : String
deriving DecidableEq, Repr

/-- Embeds `Reader.setup` (reader.go): fetch the fileset metadata from the
store (the additive and deletive index readers are built from it). -/
def Reader.setup (r : Reader) : Except Err Metadata :=
  match r.store.find? (fun kv => kv.1 = r.path) with
  | some kv => .ok kv.2
  | none => .error ("fileset not found: " ++ r.path)

/-- Embeds `index.Reader.Iterate` (outside src/; modelled from the spec,
section 4.2): a forward-only pass over the index entries in order, stopping
at the first callback error.  The state a Go callback closure mutates is
threaded explicitly. -/
def iterateFold {σ : Type} (cb : σ → Index → Except Err σ) : σ → List Index → Except Err σ
  | s0, [] => .ok s0
  | s0, idx :: rest =>
    match cb s0 idx with
    | .error e => .error e
    | .ok s1 => iterateFold cb s1 rest

/-- Embeds `Reader.Iterate` (reader.go): after setup, iterate the deletive
index entries when the optional variadic `deletive` argument is present with
first value true, otherwise the additive entries, wrapping each entry in a
FileReader. -/
def Reader.Iterate {σ : Type} (r : Reader) (cb : σ → FileReader → Except Err σ)
    (s0 : σ) (deletive : List Bool := []) : Except Err σ :=
  match r.setup with
  | .error e => .error e
  | .ok md =>
    if (match deletive with | [] => false | b :: _ => b) then
      iterateFold (fun s idx => cb s (newFileReader r.chunks idx)) s0 md.deletive
    else
      iterateFold (fun s idx => cb s (newFileReader r.chunks idx)) s0 md.additive

/-- The sequence of entries visited by `Reader.Iterate`, observed through a
collecting callback. -/
def Reader.iterated (r : Reader) (deletive : List Bool := []) : Except Err (List Index) :=
  r.Iterate (fun acc fr => .ok (acc ++ [fr.idx])) [] deletive

/-! ### Heap embedding of proto.Clone (reader.go) -/

/-- A heap of index records; addresses are list positions.  Makes the
aliasing behavior of `proto.Clone` explicit. -/
abbrev Heap := List Index

/-- Read the record at an address. -/
def heapRead (h : Heap) (a : Nat) : Option Index := h[a]?

/-- Allocate a fresh record, returning the new heap and its address. -/
def heapAlloc (h : Heap) (v : Index) : Heap × Nat := (h ++ [v], h.length)

/-- Mutate the record at an address in place. -/
def heapWrite (h : Heap) (a : Nat) (v : Index) : Heap := h.set a v

/-- Heap-level embedding of `FileReader`: `newFileReader` keeps the address
of its private clone of the index record. -/
structure HFileReader where
  chunks : ChunkStore
  idxAddr : Nat
deriving DecidableEq, Repr

/-- Heap-level embedding of `newFileReader` (reader.go): `proto.Clone(idx)`
copies the record at `idxAddr` into a fresh cell. -/
def hNewFileReader (h : Heap) (chunks : ChunkStore) (idxAddr : Nat) :
    Option (Heap × HFileReader) :=
  match heapRead h idxAddr with
  | none => none
  | some v =>
    let al := heapAlloc h v
    some (al.1, ⟨chunks, al.2⟩)

/-- Heap-level embedding of the `FileReader.Index` method (reader.go): return
`proto.Clone(fr.idx)`, a freshly allocated copy of the private record. -/
def HFileReader.IndexFn (fr : HFileReader) (h : Heap) : Option (Heap × Nat) :=
  match heapRead h fr.idxAddr with
  | none => none
  | some v => some (heapAlloc h v)

/-- Heap-level embedding of `FileReader.Content` (reader.go): reads the
private record and streams its DataRefs. -/
def HFileReader.ContentFn (fr : HFileReader) (h : Heap) : Option (Except Err Bytes) :=
  match heapRead h fr.idxAddr with
  | none => none
  | some idx => some (chunkReaderGet fr.chunks (getDataRefs idx.file.parts))

end Pach

namespace Pach

/-! ### Theorems -/


/-! ### Protobuf round-trip lemmas -/

theorem readVarint_lt (b : Nat) (h : b < 128) (rest : Bytes) :
    readVarint (b :: rest) = some (b, rest) := by
  simp [readVarint, h]

theorem readVarint_encVarintAux (fuel : Nat) :
    ∀ n, n ≤ fuel → ∀ rest, readVarint (encVarintAux fuel n ++ rest) = some (n, rest) := by
  induction fuel with
  | zero =>
    intro n hn rest
    have : n = 0 := Nat.le_zero.mp hn
    subst this
    simp [encVarintAux, readVarint]
  | succ f ih =>
    intro n hn rest
    by_cases h : n < 128
    · simp [encVarintAux, h, readVarint_lt]
    · have hb : ¬ (n % 128 + 128 < 128) := by omega
      have hdiv : n / 128 ≤ f := by
        have h1 : n / 128 < n := Nat.div_lt_self (by omega) (by omega)
        omega
      have hrec := ih (n / 128) hdiv rest
      simp only [encVarintAux, h, if_false, List.cons_append, readVarint, hb, hrec]
      have hmod : (n % 128 + 128) % 128 = n % 128 := by omega
      rw [hmod]
      have := Nat.mod_add_div n 128
      simp only [this]

theorem readVarint_encVarint (n : Nat) (rest : Bytes) :
    readVarint (encVarint n ++ rest) = some (n, rest) :=
  readVarint_encVarintAux n n le_rfl rest

theorem readLenDelim_enc (s rest : Bytes) :
    readLenDelim (encLenDelim s ++ rest) = some (s, rest) := by
  unfold readLenDelim encLenDelim
  rw [List.append_assoc, readVarint_encVarint]
  simp [List.take_left, List.drop_left, Nat.le_add_right]

theorem readLenDelim_enc_nil (s : Bytes) :
    readLenDelim (encLenDelim s) = some (s, []) := by
  have := readLenDelim_enc s []
  simpa using this

theorem decPathRangeLoop_nil (f : Nat) (acc : PathRange) :
    decPathRangeLoop f acc [] = some acc := by
  cases f <;> rfl

theorem decPathRangeLoop_field1 (f : Nat) (acc : PathRange) (s rest : Bytes) :
    decPathRangeLoop (f + 1) acc (10 :: (encLenDelim s ++ rest)) =
      decPathRangeLoop f { acc with lower := s } rest := by
  simp [decPathRangeLoop, readVarint_lt 10 (by norm_num), readLenDelim_enc]

theorem decPathRangeLoop_field2 (f : Nat) (acc : PathRange) (s rest : Bytes) :
    decPathRangeLoop (f + 1) acc (18 :: (encLenDelim s ++ rest)) =
      decPathRangeLoop f { acc with upper := s } rest := by
  simp [decPathRangeLoop, readVarint_lt 18 (by norm_num), readLenDelim_enc]

theorem decPathRangeLoop_field1_nil (f : Nat) (acc : PathRange) (s : Bytes) :
    decPathRangeLoop (f + 1) acc (10 :: encLenDelim s) =
      decPathRangeLoop f { acc with lower := s } [] := by
  have := decPathRangeLoop_field1 f acc s []
  simpa using this

theorem decPathRangeLoop_field2_nil (f : Nat) (acc : PathRange) (s : Bytes) :
    decPathRangeLoop (f + 1) acc (18 :: encLenDelim s) =
      decPathRangeLoop f { acc with upper := s } [] := by
  have := decPathRangeLoop_field2 f acc s []
  simpa using this

theorem decPathRangeLoop_enc (r : PathRange) :
    decPathRangeLoop ((encPathRange r).length + 1) default (encPathRange r) = some r := by
  obtain ⟨lo, up⟩ := r
  by_cases hlo : lo = [] <;> by_cases hup : up = []
  · subst hlo; subst hup
    simp [encPathRange, encStrField, decPathRangeLoop_nil]
    rfl
  · subst hlo
    simp only [encPathRange, encStrField, if_true, if_neg hup, List.nil_append,
      ite_true, eq_self_iff_true]
    rw [List.length_cons, decPathRangeLoop_field2_nil, decPathRangeLoop_nil]
    rfl
  · subst hup
    simp only [encPathRange, encStrField, if_true, if_neg hlo, List.append_nil,
      ite_true, eq_self_iff_true]
    rw [List.length_cons, decPathRangeLoop_field1_nil, decPathRangeLoop_nil]
    rfl
  · simp only [encPathRange, encStrField, if_neg hlo, if_neg hup, List.cons_append]
    rw [List.length_cons, decPathRangeLoop_field1, List.length_append, List.length_cons]
    rw [show (encLenDelim lo).length + ((encLenDelim up).length + 1) =
      ((encLenDelim lo).length + (encLenDelim up).length) + 1 from by omega]
    rw [decPathRangeLoop_field2_nil, decPathRangeLoop_nil]

theorem decCompactionTaskLoop_nil (f : Nat) (acc : CompactionTask) :
    decCompactionTaskLoop f acc [] = some acc := by
  cases f <;> rfl

theorem decCompactionTaskLoop_field1 (f : Nat) (acc : CompactionTask) (s rest : Bytes) :
    decCompactionTaskLoop (f + 1) acc (10 :: (encLenDelim s ++ rest)) =
      decCompactionTaskLoop f { acc with inputs := acc.inputs ++ [s] } rest := by
  simp [decCompactionTaskLoop, readVarint_lt 10 (by norm_num), readLenDelim_enc]

theorem decCompactionTaskLoop_field2 (f : Nat) (acc : CompactionTask) (r : PathRange)
    (rest : Bytes) (hacc : acc.range = none) :
    decCompactionTaskLoop (f + 1) acc (18 :: (encLenDelim (encPathRange r) ++ rest)) =
      decCompactionTaskLoop f { acc with range := some r } rest := by
  simp [decCompactionTaskLoop, readVarint_lt 18 (by norm_num), readLenDelim_enc, hacc,
    decPathRangeLoop_enc]

theorem decCompactionTaskLoop_field2_nil (f : Nat) (acc : CompactionTask) (r : PathRange)
    (hacc : acc.range = none) :
    decCompactionTaskLoop (f + 1) acc (18 :: encLenDelim (encPathRange r)) =
      decCompactionTaskLoop f { acc with range := some r } [] := by
  have := decCompactionTaskLoop_field2 f acc r [] hacc
  simpa using this

theorem decCompactionTaskLoop_inputs (inputs : List Bytes) :
    ∀ (f : Nat) (acc : CompactionTask) (rest : Bytes),
      decCompactionTaskLoop (inputs.length + f) acc (encTaskInputs inputs ++ rest) =
        decCompactionTaskLoop f { acc with inputs := acc.inputs ++ inputs } rest := by
  induction inputs with
  | nil =>
    intro f acc rest
    simp [encTaskInputs]
  | cons s tl ih =>
    intro f acc rest
    have hfu : (s :: tl).length + f = (tl.length + f) + 1 := by
      simp [List.length_cons]; omega
    have hby : encTaskInputs (s :: tl) ++ rest =
        10 :: (encLenDelim s ++ (encTaskInputs tl ++ rest)) := by
      simp [encTaskInputs]
    rw [hfu, hby, decCompactionTaskLoop_field1, ih]
    simp

theorem encTaskInputs_length (inputs : List Bytes) :
    inputs.length ≤ (encTaskInputs inputs).length := by
  induction inputs with
  | nil => simp [encTaskInputs]
  | cons s tl ih =>
    simp only [encTaskInputs, List.map_cons, List.flatten_cons, List.length_append,
      List.length_cons]
    have : (encTaskInputs tl).length = ((tl.map (fun s => 10 :: encLenDelim s)).flatten).length := by
      simp [encTaskInputs]
    omega

theorem deserialize_serializeCompactionTask (t : CompactionTask) :
    deserializeCompactionTask (serializeCompactionTask t) = .ok t := by
  obtain ⟨inputs, range⟩ := t
  have hurl : afterLastSlash (47 :: compactionTaskName) = compactionTaskName := by decide
  unfold deserializeCompactionTask serializeCompactionTask
  simp only [hurl, if_pos rfl, ite_true]
  suffices h : decCompactionTaskLoop
      ((encCompactionTask ⟨inputs, range⟩).length + 1) default
      (encCompactionTask ⟨inputs, range⟩) = some ⟨inputs, range⟩ by
    rw [h]
  cases range with
  | none =>
    have hb : encCompactionTask ⟨inputs, none⟩ = encTaskInputs inputs ++ [] := by
      simp [encCompactionTask]
    have hf : (encCompactionTask (⟨inputs, none⟩ : CompactionTask)).length + 1 =
        inputs.length + ((encCompactionTask (⟨inputs, none⟩ : CompactionTask)).length + 1
          - inputs.length) := by
      have := encTaskInputs_length inputs
      rw [hb]
      simp only [List.append_nil]
      omega
    rw [hf, hb, decCompactionTaskLoop_inputs, decCompactionTaskLoop_nil]
    rfl
  | some r =>
    have hb : encCompactionTask ⟨inputs, some r⟩ =
        encTaskInputs inputs ++ (18 :: encLenDelim (encPathRange r)) := by
      simp [encCompactionTask]
    have hf : (encCompactionTask (⟨inputs, some r⟩ : CompactionTask)).length + 1 =
        inputs.length + ((((encCompactionTask (⟨inputs, some r⟩ : CompactionTask)).length +
          1 - inputs.length) - 1) + 1) := by
      have h1 := encTaskInputs_length inputs
      rw [hb]
      simp only [List.length_append, List.length_cons]
      omega
    rw [hf, hb, decCompactionTaskLoop_inputs, decCompactionTaskLoop_field2_nil,
      decCompactionTaskLoop_nil]
    · rfl
    · rfl

theorem decCompactionTaskResultLoop_nil (f : Nat) (acc : CompactionTaskResult) :
    decCompactionTaskResultLoop f acc [] = some acc := by
  cases f <;> rfl

theorem decCompactionTaskResultLoop_field1 (f : Nat) (acc : CompactionTaskResult)
    (s rest : Bytes) :
    decCompactionTaskResultLoop (f + 1) acc (10 :: (encLenDelim s ++ rest)) =
      decCompactionTaskResultLoop f { acc with id := s } rest := by
  simp [decCompactionTaskResultLoop, readVarint_lt 10 (by norm_num), readLenDelim_enc]

theorem deserialize_serializeCompactionResult (res : CompactionTaskResult) :
    deserializeCompactionResult (serializeCompactionResult res) = .ok res := by
  obtain ⟨id⟩ := res
  have hurl : afterLastSlash (47 :: compactionTaskResultName) = compactionTaskResultName := by
    decide
  unfold deserializeCompactionResult serializeCompactionResult
  simp only [hurl, if_pos rfl, ite_true]
  suffices h : decCompactionTaskResultLoop
      ((encCompactionTaskResult ⟨id⟩).length + 1) default
      (encCompactionTaskResult ⟨id⟩) = some ⟨id⟩ by
    rw [h]
  by_cases hid : id = []
  · subst hid
    simp [encCompactionTaskResult, encStrField, decCompactionTaskResultLoop_nil]
    rfl
  · have hb : encCompactionTaskResult ⟨id⟩ = 10 :: encLenDelim id := by
      simp [encCompactionTaskResult, encStrField, hid]
    rw [hb, List.length_cons]
    have := decCompactionTaskResultLoop_field1 ((encLenDelim id).length + 1) default id []
    simp only [List.append_nil] at this
    rw [this, decCompactionTaskResultLoop_nil]

/-- C2: serialization of compaction tasks and results round-trips
(deserialize after serialize is the identity, Inputs and Range preserved),
and the envelope carries a type tag naming the serialized message type,
distinct between the two message types. -/
theorem compaction_serialization_roundtrip :
    (∀ t : CompactionTask,
        deserializeCompactionTask (serializeCompactionTask t) = .ok t) ∧
    (∀ res : CompactionTaskResult,
        deserializeCompactionResult (serializeCompactionResult res) = .ok res) ∧
    (∀ t : CompactionTask,
        (serializeCompactionTask t).typeUrl = 47 :: compactionTaskName) ∧
    (∀ res : CompactionTaskResult,
        (serializeCompactionResult res).typeUrl = 47 :: compactionTaskResultName) ∧
    compactionTaskName ≠ compactionTaskResultName :=
  ⟨deserialize_serializeCompactionTask, deserialize_serializeCompactionResult,
    fun _ => rfl, fun _ => rfl, by decide⟩


/-- C7: In the chunk wire format, the default (zero) value of EncryptionAlgo
is CHACHA20 and the default of CompressionAlgo is NONE, and CompressionAlgo
has exactly the two members NONE and GZIP_BEST_SPEED. -/
theorem chunk_enum_defaults :
    EncryptionAlgo.ofNum 0 = some .CHACHA20 ∧
    CompressionAlgo.ofNum 0 = some .NONE ∧
    EncryptionAlgo.CHACHA20.toNum = 0 ∧
    CompressionAlgo.NONE.toNum = 0 ∧
    (∀ c : CompressionAlgo, c = .NONE ∨ c = .GZIP_BEST_SPEED) := by
  refine ⟨rfl, rfl, rfl, rfl, fun c => ?_⟩
  cases c
  · exact Or.inl rfl
  · exact Or.inr rfl

/-- C8: PIPELINE_FAILURE is absorbing under SetPipelineState: when the stored
state of the pipeline is PIPELINE_FAILURE, the call returns without error and
the stored record (state and reason included) is unchanged, for every target
state and `from` list. -/
theorem setPipelineState_failure_absorbing
    (pipelines : Col EtcdPipelineInfo) (pipeline : String)
    (fromStates : List PipelineState) (target : PipelineState) (reason : String)
    (ptr : EtcdPipelineInfo)
    (hget : colGet pipelines pipeline = .ok ptr)
    (hfail : ptr.state = .PIPELINE_FAILURE) :
    setPipelineState pipelines pipeline fromStates target reason = .ok pipelines := by
  unfold setPipelineState
  rw [hget]
  simp [hfail]

/-- Witness for C8 at a concrete store. -/
theorem setPipelineState_failure_absorbing_witness :
    setPipelineState
      [("p", ⟨.PIPELINE_FAILURE, "r", [], .JOB_STARTING⟩)] "p"
      [.PIPELINE_RUNNING] .PIPELINE_RUNNING "go" =
      .ok [("p", ⟨.PIPELINE_FAILURE, "r", [], .JOB_STARTING⟩)] :=
  setPipelineState_failure_absorbing _ _ _ _ _
    ⟨.PIPELINE_FAILURE, "r", [], .JOB_STARTING⟩ rfl rfl

/-- C9: for every job whose current state is terminal (JOB_SUCCESS,
JOB_FAILURE or JOB_KILLED), UpdateJobState returns an error and writes
neither the pipeline collection nor the job collection. -/
theorem updateJobState_terminal_error
    (pipelines : Col EtcdPipelineInfo) (jobs : Col EtcdJobInfo)
    (jobPtr : EtcdJobInfo) (state : JobState) (reason : String) (now : Nat)
    (hterm : IsTerminal jobPtr.state = true) :
    (updateJobState pipelines jobs jobPtr state reason now).1 ≠ none ∧
    (updateJobState pipelines jobs jobPtr state reason now).2.1 = pipelines ∧
    (updateJobState pipelines jobs jobPtr state reason now).2.2 = jobs := by
  unfold updateJobState
  simp [hterm]

/-- Witness for C9 at a concrete terminal job. -/
theorem updateJobState_terminal_error_witness :
    (updateJobState [] [] ⟨"j", "p", .JOB_SUCCESS, "", none, none⟩
        .JOB_RUNNING "r" 0).1 ≠ none ∧
    (updateJobState [] [] ⟨"j", "p", .JOB_SUCCESS, "", none, none⟩
        .JOB_RUNNING "r" 0).2.1 = ([] : Col EtcdPipelineInfo) ∧
    (updateJobState [] [] ⟨"j", "p", .JOB_SUCCESS, "", none, none⟩
        .JOB_RUNNING "r" 0).2.2 = ([] : Col EtcdJobInfo) :=
  updateJobState_terminal_error [] [] ⟨"j", "p", .JOB_SUCCESS, "", none, none⟩
    .JOB_RUNNING "r" 0 rfl

/-- C10: CreateRepoInTransaction rejects exactly the requests whose repo name
is the reserved fileset repo name, returning an error without invoking the
driver; every other request is forwarded to the driver and its outcome
returned. -/
theorem createRepoInTransaction_reserved (driverResult : Except Err Unit)
    (request : CreateRepoRequest) :
    createRepoInTransaction driverResult request =
      if request.repo.map Repo.name = some fileSetsRepo then
        (.error (fileSetsRepo ++ " is a reserved name"), false)
      else
        (driverResult, true) := by
  unfold createRepoInTransaction
  match h : request.repo with
  | none => simp
  | some repo =>
    by_cases hn : repo.name = fileSetsRepo
    · simp [hn]
    · simp [hn]

/-- C6: a fileset ID string that parseID rejects makes AddFileset and
RenewFileset return the parse error immediately without invoking the driver,
and makes a compaction worker fail a task whose serialized input IDs do not
parse, without invoking storage.Compact. -/
theorem unparseable_id_rejected :
    (∀ (driverResult : ID → Except Err Unit) (req : AddFilesetRequest) (e : Err),
        parseID req.filesetId = .error e →
        addFileset driverResult req = (.error e, false)) ∧
    (∀ (driverResult : ID → Except Err Unit) (req : RenewFilesetRequest) (e : Err),
        parseID req.filesetId = .error e →
        renewFileset driverResult req = (.error e, false)) ∧
    (∀ (storageCompact : List ID → PathRange → Except Err ID) (subtaskData : ProtoAny)
        (task : CompactionTask) (e : Err),
        deserializeCompactionTask subtaskData = .ok task →
        parseInputs task.inputs = .error e →
        compactionWorkerTask storageCompact subtaskData = (.error e, false)) := by
  refine ⟨?_, ?_, ?_⟩
  · intro driverResult req e hp
    unfold addFileset
    rw [hp]
  · intro driverResult req e hp
    unfold renewFileset
    rw [hp]
  · intro storageCompact subtaskData task e hdes hp
    simp [compactionWorkerTask, hdes, hp]

/-- Witness for C6 at the concrete unparseable ID string "zz". -/
theorem unparseable_id_rejected_witness :
    addFileset (fun _ => .ok ()) ⟨"c", asBytes "zz"⟩ =
      (.error "parsing fileset id: invalid hex string", false) ∧
    renewFileset (fun _ => .ok ()) ⟨asBytes "zz", 60⟩ =
      (.error "parsing fileset id: invalid hex string", false) ∧
    compactionWorkerTask (fun _ _ => .ok [])
        (serializeCompactionTask ⟨[asBytes "zz"], none⟩) =
      (.error "parsing fileset id: invalid hex string", false) :=
  ⟨unparseable_id_rejected.1 _ _ _ rfl,
    unparseable_id_rejected.2.1 _ _ _ rfl,
    unparseable_id_rejected.2.2 _ _ ⟨[asBytes "zz"], none⟩ _ rfl rfl⟩

theorem runSubtasksFold_err (outcomes : List (Except Err TaskInfo)) :
    ∀ s0 : List ID,
      (∃ o ∈ outcomes, (∃ e, o = .error e) ∨ ∃ ti, o = .ok ti ∧ ti.result = none) →
      ∃ e, runSubtasksFold collectCompactionResult s0 outcomes = .error e := by
  induction outcomes with
  | nil =>
    intro s0 h
    obtain ⟨o, ho, _⟩ := h
    exact absurd ho (List.not_mem_nil o)
  | cons o rest ih =>
    intro s0 h
    match o with
    | .error e => exact ⟨e, rfl⟩
    | .ok ti =>
      match hc : collectCompactionResult s0 ti with
      | .error e =>
        refine ⟨e, ?_⟩
        simp [runSubtasksFold, hc]
      | .ok s1 =>
        have hrest : ∃ o ∈ rest, (∃ e, o = .error e) ∨ ∃ ti, o = .ok ti ∧ ti.result = none := by
          obtain ⟨o', ho', hbad⟩ := h
          rcases List.mem_cons.mp ho' with heq | hmem
          · subst heq
            rcases hbad with ⟨e, habs⟩ | ⟨ti', hti', hres⟩
            · exact absurd habs (by simp)
            · have : ti = ti' := by injection hti'
              subst this
              rw [collectCompactionResult, hres] at hc
              exact absurd hc (by simp)
          · exact ⟨o', hmem, hbad⟩
        obtain ⟨e, he⟩ := ih s1 hrest
        refine ⟨e, ?_⟩
        simp [runSubtasksFold, hc, he]

/-- C1: if any compaction subtask fails, or completes without a result
attached, driver.compact returns an error with no merged fileset ID; and in
every case the returned pair is either an ID with no error or an error with
no ID, never a partial merge result. -/
theorem compact_failfast_no_partial :
    (∀ (mergeFn : List ID → ID) (tasks : List FsCompactionTask)
        (outcomes : List (Except Err TaskInfo)),
        (∃ o ∈ outcomes, (∃ e, o = .error e) ∨ ∃ ti, o = .ok ti ∧ ti.result = none) →
        ∃ e, driverCompact mergeFn tasks outcomes = (none, some e)) ∧
    (∀ (mergeFn : List ID → ID) (tasks : List FsCompactionTask)
        (outcomes : List (Except Err TaskInfo)),
        (∃ id, driverCompact mergeFn tasks outcomes = (some id, none)) ∨
        (∃ e, driverCompact mergeFn tasks outcomes = (none, some e))) := by
  constructor
  · intro mergeFn tasks outcomes h
    obtain ⟨e, he⟩ := runSubtasksFold_err outcomes [] h
    refine ⟨e, ?_⟩
    unfold driverCompact dcCompact masterWorkerFunc
    rw [he]
  · intro mergeFn tasks outcomes
    unfold driverCompact dcCompact masterWorkerFunc
    match h : runSubtasksFold collectCompactionResult [] outcomes with
    | .error e => exact Or.inr ⟨e, rfl⟩
    | .ok ids => exact Or.inl ⟨mergeFn ids, rfl⟩

/-- Witness for C1 at a concrete run with one subtask completing without a
result. -/
theorem compact_failfast_no_partial_witness :
    ∃ e, driverCompact (fun _ => []) [] [.ok ⟨none⟩] = (none, some e) :=
  compact_failfast_no_partial.1 (fun _ => []) [] [.ok ⟨none⟩]
    ⟨.ok ⟨none⟩, by simp, Or.inr ⟨⟨none⟩, rfl, rfl⟩⟩

theorem iterateFold_collect (entries : List Index) :
    ∀ acc : List Index,
      iterateFold (fun s idx => .ok (s ++ [idx])) acc entries = .ok (acc ++ entries) := by
  induction entries with
  | nil => intro acc; simp [iterateFold]
  | cons idx rest ih =>
    intro acc
    simp [iterateFold, ih (acc ++ [idx])]

/-- C3: Iterate visits the additive index entries by default, and visits the
deletive index entries exactly when the optional deletive argument is present
with first value true. -/
theorem iterate_additive_deletive (r : Reader) (md : Metadata) (deletive : List Bool)
    (hsetup : r.setup = .ok md) :
    Reader.iterated r deletive =
      .ok (if deletive.headD false then md.deletive else md.additive) := by
  cases deletive with
  | nil =>
    simp only [Reader.iterated, Reader.Iterate, hsetup, List.headD_nil, Bool.false_eq_true,
      if_false]
    simpa [newFileReader] using iterateFold_collect md.additive []
  | cons b rest =>
    cases b with
    | false =>
      simp only [Reader.iterated, Reader.Iterate, hsetup, List.headD_cons,
        Bool.false_eq_true, if_false]
      simpa [newFileReader] using iterateFold_collect md.additive []
    | true =>
      simp only [Reader.iterated, Reader.Iterate, hsetup, List.headD_cons, if_true]
      simpa [newFileReader] using iterateFold_collect md.deletive []

/-- Witness for C3 at a concrete one-entry fileset, both argument forms. -/
theorem iterate_additive_deletive_witness :
    Reader.iterated ⟨[("fs", ⟨[default], []⟩)], [], "fs"⟩ [true] = .ok [] ∧
    Reader.iterated ⟨[("fs", ⟨[default], []⟩)], [], "fs"⟩ [] = .ok [default] :=
  ⟨iterate_additive_deletive _ ⟨[default], []⟩ [true] rfl,
    iterate_additive_deletive _ ⟨[default], []⟩ [] rfl⟩

theorem chunkReaderGet_forall₂ (store : ChunkStore) (drs : List DataRef)
    (bss : List Bytes)
    (h : List.Forall₂ (fun dr bs => resolveDataRef store dr = .ok bs) drs bss) :
    chunkReaderGet store drs = .ok bss.flatten := by
  induction h with
  | nil => rfl
  | cons hres _ ih =>
    simp only [chunkReaderGet, hres, ih, List.flatten_cons]

/-- C5: Content writes exactly the concatenation, in order, of the byte
ranges referenced by the DataRefs collected from the entry parts, each read
through the chunk store. -/
theorem content_streams_dataRefs (fr : FileReader) (bss : List Bytes)
    (h : List.Forall₂ (fun dr bs => resolveDataRef fr.chunks dr = .ok bs)
      (getDataRefs fr.idx.file.parts) bss) :
    fr.Content = .ok bss.flatten := by
  unfold FileReader.Content
  exact chunkReaderGet_forall₂ fr.chunks _ bss h

/-- Witness for C5 at a concrete one-chunk store. -/
theorem content_streams_dataRefs_witness :
    FileReader.Content
      { chunks := [([1], [5, 6, 7])]
        idx :=
          { path := [2]
            file :=
              { parts :=
                  [{ tag := []
                     dataRefs :=
                       [{ ref :=
                            { id := [1], sizeBytes := 3, edge := false, dek := []
                              encryptionAlgo := EncryptionAlgo.CHACHA20
                              compressionAlgo := CompressionAlgo.NONE }
                          hash := [], offsetBytes := 1, sizeBytes := 2 }] }] } } } =
      .ok ([[6, 7]] : List Bytes).flatten :=
  content_streams_dataRefs _ [[6, 7]] (List.Forall₂.cons rfl List.Forall₂.nil)

/-- C4: Index() returns a clone: after mutating the record returned by one
Index() call, a later Index() call on the same entry still returns the
original index record, and Content() still streams from the original
record. -/
theorem index_clone_immutable (h0 : Heap) (chunks : ChunkStore) (a0 : Nat)
    (idx0 v : Index) (hread : heapRead h0 a0 = some idx0) :
    ∃ h1 fr h2 r1,
      hNewFileReader h0 chunks a0 = some (h1, fr) ∧
      fr.IndexFn h1 = some (h2, r1) ∧
      heapRead h2 r1 = some idx0 ∧
      (∃ h4 r2, fr.IndexFn (heapWrite h2 r1 v) = some (h4, r2) ∧
        heapRead h4 r2 = some idx0) ∧
      fr.ContentFn (heapWrite h2 r1 v) = fr.ContentFn h1 := by
  have h1def : hNewFileReader h0 chunks a0 =
      some (h0 ++ [idx0], ⟨chunks, h0.length⟩) := by
    unfold hNewFileReader
    rw [hread]
    rfl
  have hr1 : heapRead (h0 ++ [idx0]) h0.length = some idx0 :=
    List.getElem?_concat_length h0 idx0
  have hidxfn : HFileReader.IndexFn ⟨chunks, h0.length⟩ (h0 ++ [idx0]) =
      some ((h0 ++ [idx0]) ++ [idx0], (h0 ++ [idx0]).length) := by
    unfold HFileReader.IndexFn
    rw [hr1]
    rfl
  have hr2 : heapRead ((h0 ++ [idx0]) ++ [idx0]) (h0 ++ [idx0]).length = some idx0 :=
    List.getElem?_concat_length _ idx0
  -- reading the private cell is unaffected by the write at the fresh address
  have haddr : (h0 ++ [idx0]).length ≠ h0.length := by simp
  have hlt : h0.length < (h0 ++ [idx0]).length := by simp
  have hrpriv :
      heapRead (heapWrite ((h0 ++ [idx0]) ++ [idx0]) (h0 ++ [idx0]).length v)
        h0.length = some idx0 := by
    unfold heapRead heapWrite
    rw [List.getElem?_set_ne haddr]
    show ((h0 ++ [idx0]) ++ [idx0])[h0.length]? = some idx0
    rw [List.getElem?_append_left hlt]
    exact hr1
  refine ⟨h0 ++ [idx0], ⟨chunks, h0.length⟩, (h0 ++ [idx0]) ++ [idx0],
    (h0 ++ [idx0]).length, h1def, hidxfn, hr2, ?_, ?_⟩
  · refine ⟨heapWrite ((h0 ++ [idx0]) ++ [idx0]) (h0 ++ [idx0]).length v ++ [idx0],
      (heapWrite ((h0 ++ [idx0]) ++ [idx0]) (h0 ++ [idx0]).length v).length, ?_, ?_⟩
    · unfold HFileReader.IndexFn
      rw [hrpriv]
      rfl
    · exact List.getElem?_concat_length _ idx0
  · unfold HFileReader.ContentFn
    rw [hrpriv, hr1]

/-- Witness for C4 at a concrete one-record heap. -/
theorem index_clone_immutable_witness :
    ∃ h1 fr h2 r1,
      hNewFileReader [(default : Index)] [] 0 = some (h1, fr) ∧
      HFileReader.IndexFn fr h1 = some (h2, r1) ∧
      heapRead h2 r1 = some default ∧
      (∃ h4 r2,
        HFileReader.IndexFn fr (heapWrite h2 r1 ⟨[1], ⟨[]⟩⟩) = some (h4, r2) ∧
        heapRead h4 r2 = some default) ∧
      HFileReader.ContentFn fr (heapWrite h2 r1 ⟨[1], ⟨[]⟩⟩) =
        HFileReader.ContentFn fr h1 :=
  index_clone_immutable [default] [] 0 default ⟨[1], ⟨[]⟩⟩ rfl

end Pach
